import Mathlib

/-!
Verification model of the extended-JSON codec in
src/fprime_gds/flask/static/js/json.js (class SaferParser and the helper
convertInt).  The JavaScript code is shallowly embedded over List Char:
each source function becomes a Lean definition with the same name, and the
host-runtime facilities it calls (JSON.parse, JSON.stringify, Number
parsing and printing, loose equality, property access) are modelled
explicitly.  Machine doubles appear only through their integer-valued
observable behaviour: parsing rounds an integer literal to the nearest
representable 53-bit-mantissa value (ties to even), and printing uses the
shortest decimal that parses back, which is the exact digit string for
integers below 2 to the 53rd.  All recursion is structural (fuel where
needed) so that every definition evaluates inside the kernel.
-/

namespace SaferParserModel

/-! ### Characters and digit strings -/

/-- Whitespace recognised by trim, ToNumber and parseInt in the model. -/
def isWsChar (c : Char) : Bool :=
  c == ' ' || c == '\t' || c == '\n' || c == '\r'

/-- Decimal digit test. -/
def isDigitChar (c : Char) : Bool :=
  '0' ≤ c && c ≤ '9'

/-- JavaScript String.prototype.trim on a character list. -/
def jsTrim (s : List Char) : List Char :=
  ((s.dropWhile (fun c => isWsChar c)).reverse.dropWhile (fun c => isWsChar c)).reverse

/-- The character for a single decimal digit value. -/
def digitChar (n : Nat) : Char := Char.ofNat (48 + n)

theorem digitChar_toNat (n : Nat) (h : n < 10) : (digitChar n).toNat = 48 + n := by
  interval_cases n <;> rfl

theorem isDigitChar_digitChar (n : Nat) (h : n < 10) : isDigitChar (digitChar n) = true := by
  interval_cases n <;> rfl

/-- Decimal digits of a natural number, fuel-driven so it evaluates in the
kernel.  The fuel bounds the number of digits. -/
def natDigitsF : Nat → Nat → List Char
  | 0, _ => []
  | f + 1, n =>
    if n < 10 then [digitChar n]
    else natDigitsF f (n / 10) ++ [digitChar (n % 10)]

/-- Decimal digit string of a natural number (no sign, no leading zeros). -/
def natDigits (n : Nat) : List Char := natDigitsF (n + 1) n

/-- Numeric value of a digit string (digits only). -/
def natVal (ds : List Char) : Nat :=
  ds.foldl (fun a c => 10 * a + (c.toNat - 48)) 0

theorem natVal_append_digit (ds : List Char) (c : Char) :
    natVal (ds ++ [c]) = 10 * natVal ds + (c.toNat - 48) := by
  simp [natVal, List.foldl_append]

theorem natVal_natDigitsF (f n : Nat) (h : n < f) : natVal (natDigitsF f n) = n := by
  induction f generalizing n with
  | zero => omega
  | succ f ih =>
    by_cases h10 : n < 10
    · simp [natDigitsF, h10, natVal, digitChar_toNat n h10]
    · have hrec : n / 10 < f := by omega
      simp only [natDigitsF, h10, if_false]
      rw [natVal_append_digit, ih (n / 10) hrec,
        digitChar_toNat (n % 10) (Nat.mod_lt _ (by omega))]
      omega

theorem natVal_natDigits (n : Nat) : natVal (natDigits n) = n :=
  natVal_natDigitsF (n + 1) n (Nat.lt_succ_self n)

theorem natDigitsF_all_digit (f n : Nat) :
    ∀ c ∈ natDigitsF f n, isDigitChar c = true := by
  induction f generalizing n with
  | zero => simp [natDigitsF]
  | succ f ih =>
    by_cases h10 : n < 10
    · intro c hc
      simp [natDigitsF, h10] at hc
      subst hc
      exact isDigitChar_digitChar n h10
    · intro c hc
      simp only [natDigitsF, h10, if_false, List.mem_append, List.mem_singleton] at hc
      rcases hc with hc | hc
      · exact ih (n / 10) c hc
      · subst hc
        exact isDigitChar_digitChar (n % 10) (Nat.mod_lt _ (by omega))

theorem natDigits_all_digit (n : Nat) : ∀ c ∈ natDigits n, isDigitChar c = true :=
  natDigitsF_all_digit (n + 1) n

theorem natDigits_ne_nil (n : Nat) : natDigits n ≠ [] := by
  unfold natDigits natDigitsF
  by_cases h10 : n < 10 <;> simp [h10]

/-! ### The JavaScript value model -/

/-- JavaScript numbers, restricted to the integer-valued observable
fragment: not-a-number, the two infinities and integer-valued finite
doubles.  Every `int` produced by the model is exactly representable. -/
inductive JsNumber where
  | nan : JsNumber
  | inf : JsNumber
  | negInf : JsNumber
  | int : Int → JsNumber
deriving Repr, DecidableEq

/-- JavaScript runtime values relevant to the codec. -/
inductive JsValue where
  | vUndefined : JsValue
  | vNull : JsValue
  | vBool : Bool → JsValue
  | vNum : JsNumber → JsValue
  | vBigInt : Int → JsValue
  | vStr : List Char → JsValue
  | vArr : List JsValue → JsValue
  | vObj : List (List Char × JsValue) → JsValue

/-- A thrown JavaScript error: constructor name plus message. -/
structure JsErr where
  name : List Char
  msg : List Char
deriving Repr, DecidableEq

/-- Error.prototype.toString: name, colon, space, message. -/
def errToString (e : JsErr) : List Char :=
  e.name ++ (": ").toList ++ e.msg

/-! ### Double rounding and printing (integer fragment) -/

/-- Fuel-driven floor of the base-2 logarithm. -/
def log2F : Nat → Nat → Nat
  | 0, _ => 0
  | f + 1, m => if m ≥ 2 then log2F f (m / 2) + 1 else 0

/-- Bit length of a natural number (with fuel equal to the number, which
always suffices). -/
def bitLen (m : Nat) : Nat := log2F m m + 1

theorem log2F_le (f m k : Nat) (hk : 1 ≤ k) (h : m < 2 ^ k) : log2F f m ≤ k - 1 := by
  induction f generalizing m k with
  | zero =>
    simp only [log2F]
    omega
  | succ f ih =>
    by_cases h2 : m ≥ 2
    · have hk2 : 2 ≤ k := by
        by_contra hlt
        have : k = 1 := by omega
        subst this
        simp at h
        omega
      have hdiv : m / 2 < 2 ^ (k - 1) := by
        have : m < 2 ^ k := h
        have hpow : 2 ^ k = 2 * 2 ^ (k - 1) := by
          rw [← pow_succ']
          congr 1
          omega
        omega
      have := ih (m / 2) (k - 1) (by omega) hdiv
      simp only [log2F, h2, if_true, ge_iff_le]
      omega
    · simp only [log2F, h2, if_false]
      omega

theorem bitLen_le (m k : Nat) (hk : 1 ≤ k) (h : m < 2 ^ k) : bitLen m ≤ k := by
  have := log2F_le m m k hk h
  unfold bitLen
  omega

/-- Round a positive natural to the nearest 53-bit-mantissa representable
value, ties to even, as IEEE binary64 does for integers. -/
def roundMantissa (m : Nat) : Nat :=
  let b := bitLen m
  if b ≤ 53 then m
  else
    let u := 2 ^ (b - 53)
    let q := m / u
    let r := m % u
    if 2 * r < u then q * u
    else if 2 * r > u then q * u + u
    else if q % 2 = 0 then q * u else q * u + u

theorem roundMantissa_small (m : Nat) (h : m < 2 ^ 53) : roundMantissa m = m := by
  have hb : bitLen m ≤ 53 := bitLen_le m 53 (by omega) h
  simp [roundMantissa, hb]

theorem roundMantissa_pow53 : roundMantissa (2 ^ 53) = 2 ^ 53 := by decide

/-- Rounded integer value as a JavaScript number, with overflow to the
infinities (doubles overflow at 2 to the 1024th; the bit-length test
avoids evaluating a huge power). -/
def jsRoundNum (i : Int) : JsNumber :=
  if i = 0 then .int 0
  else
    let m := roundMantissa i.natAbs
    if 1025 ≤ bitLen m then (if i < 0 then .negInf else .inf)
    else .int (if i < 0 then -(m : Int) else (m : Int))

theorem jsRoundNum_small (n : Nat) (h : n ≤ 2 ^ 53) :
    jsRoundNum (n : Int) = .int (n : Int) := by
  by_cases h0 : n = 0
  · subst h0
    simp [jsRoundNum]
  · have hi0 : (n : Int) ≠ 0 := by exact_mod_cast h0
    have habs : (n : Int).natAbs = n := Int.natAbs_ofNat n
    have hr : roundMantissa (n : Int).natAbs = n := by
      rw [habs]
      rcases Nat.lt_or_ge n (2 ^ 53) with hlt | hge
      · exact roundMantissa_small n hlt
      · have : n = 2 ^ 53 := by omega
        rw [this]
        exact roundMantissa_pow53
    have hr2 : roundMantissa n = n := by rwa [habs] at hr
    have hbl : ¬ 1025 ≤ bitLen (roundMantissa n) := by
      rw [hr2]
      have hlt : n < 2 ^ 54 := by
        have : (2 : Nat) ^ 53 < 2 ^ 54 := by norm_num
        omega
      have := bitLen_le n 54 (by omega) hlt
      omega
    have hneg : ¬ (n : Int) < 0 := by omega
    rw [hr2] at hbl
    simp [jsRoundNum, hi0, hbl, hneg, hr2]

/-- Number.parseInt on a character list: skip whitespace, optional sign,
then a maximal run of decimal digits; NaN when no digit is found.  The
parsed mathematical integer is rounded to a representable double. -/
def jsParseInt (s : List Char) : JsNumber :=
  let t := s.dropWhile (fun c => isWsChar c)
  let st : Int × List Char :=
    match t with
    | c :: r => if c = '-' then (-1, r) else if c = '+' then (1, r) else (1, c :: r)
    | [] => (1, [])
  let ds := st.2.takeWhile (fun c => isDigitChar c)
  if ds = [] then .nan
  else jsRoundNum (st.1 * (natVal ds : Int))

end SaferParserModel

namespace SaferParserModel

/-! ### Number printing: shortest decimal that parses back -/

/-- Candidate significant-digit truncation at one step size: the two
multiples of the step nearest the value; valid when they round back to it,
preferring the closer one and breaking ties toward an even digit string,
as the host ToString algorithm does. -/
def pickCand (i st : Nat) : Option Nat :=
  let q := i / st
  let lo := q * st
  let hi := lo + st
  let vLo := decide (0 < lo) && (roundMantissa lo == i)
  let vHi := roundMantissa hi == i
  if vLo && vHi then
    let dLo := i - lo
    let dHi := hi - i
    if dLo < dHi then some lo
    else if dHi < dLo then some hi
    else if (lo / st) % 2 == 0 then some lo else some hi
  else if vLo then some lo
  else if vHi then some hi
  else none

/-- Search for the representation with the fewest significant digits. -/
def shortestSearch : Nat → Nat → Nat → Nat
  | 0, i, _ => i
  | f + 1, i, k =>
    let nd := (natDigits i).length
    if k ≥ nd then i
    else
      match pickCand i (10 ^ (nd - k)) with
      | some m => m
      | none => shortestSearch f i (k + 1)

/-- Shortest decimal integer whose double rounding reproduces the exactly
representable value. -/
def shortestRepr (i : Nat) : Nat := shortestSearch ((natDigits i).length) i 1

/-- Host integer formatting: plain digits below 10 to the 21st, exponential
notation above. -/
def fmtNat (m : Nat) : List Char :=
  if m < 10 ^ 21 then natDigits m
  else
    let ds := natDigits m
    let sig := (ds.reverse.dropWhile (fun c => c == '0')).reverse
    let e := ds.length - 1
    (match sig with
     | [] => [ '0' ]
     | [c] => [c]
     | c :: rest => c :: '.' :: rest) ++ ('e' :: '+' :: natDigits e)

/-- Number.prototype.toString for the modelled numbers.  For exactly
representable integers below 2 to the 53rd the shortest round-tripping
decimal is the exact digit string, so it is returned directly. -/
def jsNumToString : JsNumber → List Char
  | .nan => ("NaN").toList
  | .inf => ("Infinity").toList
  | .negInf => ("-Infinity").toList
  | .int i =>
    let a := i.natAbs
    let body := if a < 2 ^ 53 then natDigits a else fmtNat (shortestRepr a)
    if i < 0 then '-' :: body else body

/-- ToNumber on strings (integer fragment: signed digit runs and the
Infinity literals; fractions, exponents and hex are outside the model). -/
def toNumberStr (s : List Char) : JsNumber :=
  let t := jsTrim s
  if t = [] then .int 0
  else if t = ("Infinity").toList then .inf
  else if t = ("+Infinity").toList then .inf
  else if t = ("-Infinity").toList then .negInf
  else
    let st : Int × List Char :=
      match t with
      | '-' :: r => (-1, r)
      | '+' :: r => (1, r)
      | _ => (1, t)
    if st.2 ≠ [] ∧ st.2.all (fun c => isDigitChar c) then
      jsRoundNum (st.1 * (natVal st.2 : Int))
    else .nan

/-- BigInt.prototype.toString and Number sign formatting helper. -/
def intDigits (i : Int) : List Char :=
  if i < 0 then '-' :: natDigits i.natAbs else natDigits i.natAbs

mutual

/-- ToString coercion of a value (used by regex test coercion, by the
payload construction of the wrapper, and by loose equality on objects). -/
def jsToString : JsValue → List Char
  | .vUndefined => ("undefined").toList
  | .vNull => ("null").toList
  | .vBool b => if b then ("true").toList else ("false").toList
  | .vNum n => jsNumToString n
  | .vBigInt i => intDigits i
  | .vStr s => s
  | .vArr xs => joinComma xs
  | .vObj _ => ("[object Object]").toList

/-- Array.prototype.join with commas; null and undefined elements print
as empty text. -/
def joinComma : List JsValue → List Char
  | [] => []
  | [x] =>
    match x with
    | .vNull => []
    | .vUndefined => []
    | x => jsToString x
  | x :: xs =>
    (match x with
     | .vNull => []
     | .vUndefined => []
     | x => jsToString x) ++ ',' :: joinComma xs

end

/-- The typeof operator. -/
def typeofStr : JsValue → List Char
  | .vUndefined => ("undefined").toList
  | .vNull => ("object").toList
  | .vBool _ => ("boolean").toList
  | .vNum _ => ("number").toList
  | .vBigInt _ => ("bigint").toList
  | .vStr _ => ("string").toList
  | .vArr _ => ("object").toList
  | .vObj _ => ("object").toList

/-- Strict numeric equality: NaN equals nothing, infinities only
themselves. -/
def numEq : JsNumber → JsNumber → Bool
  | .int a, .int b => a == b
  | .inf, .inf => true
  | .negInf, .negInf => true
  | _, _ => false

/-- Loose equality of a value against a number constant, following the
abstract equality algorithm: strings and objects coerce through ToNumber,
booleans to 0 or 1, null and undefined never equal a number, and BigInts
compare mathematically. -/
def looseEqNum (v : JsValue) (m : JsNumber) : Bool :=
  match v with
  | .vNull => false
  | .vUndefined => false
  | .vNum n => numEq n m
  | .vStr s => numEq (toNumberStr s) m
  | .vBool b => numEq (.int (if b then 1 else 0)) m
  | .vBigInt i =>
    match m with
    | .int j => i == j
    | _ => false
  | .vArr xs => numEq (toNumberStr (jsToString (.vArr xs))) m
  | .vObj fs => numEq (toNumberStr (jsToString (.vObj fs))) m

/-- Loose equality of a value against null: true exactly for null and
undefined. -/
def looseEqNull (v : JsValue) : Bool :=
  match v with
  | .vNull => true
  | .vUndefined => true
  | _ => false

/-- The BigInt constructor on strings: empty trims to zero, a signed digit
run converts exactly, anything else throws a SyntaxError. -/
def bigIntOfString (s : List Char) : Except JsErr Int :=
  let t := jsTrim s
  if t = [] then .ok 0
  else
    let st : Int × List Char :=
      match t with
      | '-' :: r => (-1, r)
      | '+' :: r => (1, r)
      | _ => (1, t)
    if st.2 ≠ [] ∧ st.2.all (fun c => isDigitChar c) then
      .ok (st.1 * (natVal st.2 : Int))
    else
      .error ⟨ ("SyntaxError").toList,
        ("Cannot convert ").toList ++ s ++ (" to a BigInt").toList ⟩

/-- convertInt from json.js lines 34-42: trim, native parseInt, keep the
number when its printed form equals the trimmed input, otherwise build a
BigInt from the literal text. -/
def convertInt (string_value : List Char) : Except JsErr JsValue :=
  let sv := jsTrim string_value
  let number_value := jsParseInt sv
  if sv = jsNumToString number_value then .ok (.vNum number_value)
  else (bigIntOfString sv).map (fun i => .vBigInt i)

/-- The reviver calls convertInt on whatever payload the wrapped object
carries; a non-string payload has no trim method and throws. -/
def convertIntV : JsValue → Except JsErr JsValue
  | .vStr s => convertInt s
  | _ => .error ⟨ ("TypeError").toList,
      ("string_value.trim is not a function").toList ⟩

end SaferParserModel

namespace SaferParserModel

/-! ### Token patterns and first-match replacement -/

/-- Index of the first occurrence of a literal pattern. -/
def findLitIdx (pat : List Char) : List Char → Option Nat
  | [] => if pat = [] then some 0 else none
  | c :: t =>
    if pat.isPrefixOf (c :: t) then some 0
    else (findLitIdx pat t).map (fun i => i + 1)

/-- Match of the big-integer token at the head of the text: a space, an
optional minus sign, then at least ten decimal digits, taken greedily.
Returns the match length. -/
def bigMatchAt (s : List Char) : Option Nat :=
  match s with
  | c :: r =>
    if c = ' ' then
      let mr : Nat × List Char :=
        match r with
        | c2 :: r2 => if c2 = '-' then (1, r2) else (0, c2 :: r2)
        | [] => (0, [])
      let ds := mr.2.takeWhile (fun c => isDigitChar c)
      if 10 ≤ ds.length then some (1 + mr.1 + ds.length) else none
    else none
  | [] => none

/-- First match of the big-integer token: index and length. -/
def findBigIdx : List Char → Option (Nat × Nat)
  | [] => none
  | c :: t =>
    match bigMatchAt (c :: t) with
    | some len => some (0, len)
    | none => (findBigIdx t).map (fun p => (p.1 + 1, p.2))

/-- The two regular-expression shapes in the mapping table: a literal
token and the space-prefixed big-integer token. -/
inductive Pat where
  | lit : List Char → Pat
  | bigTok : Pat

/-- First match of a pattern: index and length. -/
def Pat.findIdx : Pat → List Char → Option (Nat × Nat)
  | .lit p, s => (findLitIdx p s).map (fun i => (i, p.length))
  | .bigTok, s => findBigIdx s

/-- RegExp.prototype.test. -/
def patTest (p : Pat) (s : List Char) : Bool := (p.findIdx s).isSome

/-- String.prototype.replace with a non-global pattern: rewrite only the
first match using the template. -/
def replaceFirst (p : Pat) (tmpl : List Char → List Char) (s : List Char) : List Char :=
  match p.findIdx s with
  | none => s
  | some (i, len) => s.take i ++ tmpl ((s.drop i).take len) ++ s.drop (i + len)

/-- The reserved wrapper key fprime-brace-replacement. -/
def fprimeKey : List Char := ("fprime\x7breplacement").toList

/-- Opening text of the quoted placeholder-wrapper literal. -/
def wrapPre : List Char := ("\x7b\"fprime\x7breplacement\": \"").toList

/-- Closing text of the quoted placeholder-wrapper literal. -/
def wrapPost : List Char := ("\"\x7d").toList

/-- The replacement template of replaceFromString: the match becomes the
payload of a placeholder-wrapper literal. -/
def wrapTemplate (m : List Char) : List Char := wrapPre ++ m ++ wrapPost

/-- One mapping tuple: pattern, replacement value, and whether a converter
(convertInt) is attached, mirroring the 2- and 3-element source tuples. -/
structure Mapping where
  pattern : Pat
  constant : JsValue
  hasConv : Bool

/-- SaferParser.MAPPINGS from json.js lines 70-76, in source order. -/
def MAPPINGS : List Mapping := [
  ⟨ .lit ("-Infinity").toList, .vNum .negInf, false ⟩,
  ⟨ .lit ("Infinity").toList, .vNum .inf, false ⟩,
  ⟨ .lit ("NaN").toList, .vNum .nan, false ⟩,
  ⟨ .lit ("null").toList, .vNull, false ⟩,
  ⟨ .bigTok, .vStr ("bigint").toList, true ⟩ ]

/-- SaferParser.replaceFromString from json.js lines 204-210: each mapping
is applied in table order to the progressively rewritten text, and each
application replaces only the first match of its pattern. -/
def replaceFromString (string_value : List Char) : List Char :=
  MAPPINGS.foldl (fun sv m => replaceFirst m.pattern wrapTemplate sv) string_value

/-! ### The quote-state scanner (processUnquoted) -/

/-- The section the scanner cuts: everything up to and including the first
double quote, or the whole text when no quote remains (indexOf plus
substring in the source). -/
def takeThroughQuote : List Char → List Char
  | [] => []
  | c :: t => if c = '"' then [c] else c :: takeThroughQuote t

/-- The rest after the cut section. -/
def dropThroughQuote : List Char → List Char
  | [] => []
  | c :: t => if c = '"' then t else dropThroughQuote t

theorem takeThroughQuote_append_dropThroughQuote (s : List Char) :
    takeThroughQuote s ++ dropThroughQuote s = s := by
  induction s with
  | nil => rfl
  | cons c t ih =>
    by_cases h : c = '"' <;> simp [takeThroughQuote, dropThroughQuote, h, ih]

theorem length_dropThroughQuote_lt (s : List Char) (h : s ≠ []) :
    (dropThroughQuote s).length < s.length := by
  induction s with
  | nil => simp at h
  | cons c t ih =>
    by_cases hq : c = '"'
    · simp [dropThroughQuote, hq]
    · by_cases ht : t = []
      · subst ht
        simp [dropThroughQuote, hq]
      · have := ih ht
        simp only [dropThroughQuote, hq, if_false, List.length_cons]
        omega

/-- Fuel-driven loop of SaferParser.processUnquoted (json.js lines
218-232): alternate between unquoted and quoted sections, applying the
process function only to unquoted ones.  The state starts unquoted and
toggles after every section. -/
def processUnquotedF (f : List Char → List Char) : Nat → Bool → List Char → List Char
  | 0, _, _ => []
  | fuel + 1, quoted, s =>
    if s = [] then []
    else
      (if quoted then takeThroughQuote s else f (takeThroughQuote s)) ++
        processUnquotedF f fuel (!quoted) (dropThroughQuote s)

/-- SaferParser.processUnquoted: run the loop with enough fuel. -/
def processUnquoted (json_string : List Char) (f : List Char → List Char) : List Char :=
  processUnquotedF f (json_string.length + 1) false json_string

/-- The scanner as a segment producer: each emitted segment carries the
quoted flag it was processed under. -/
def scanAuxF : Nat → Bool → List Char → List (List Char × Bool)
  | 0, _, _ => []
  | fuel + 1, q, s =>
    if s = [] then []
    else (takeThroughQuote s, q) :: scanAuxF fuel (!q) (dropThroughQuote s)

/-- Segments of the input in order, flags alternating from unquoted. -/
def scan (s : List Char) : List (List Char × Bool) :=
  scanAuxF (s.length + 1) false s

/-- Independent character-level splitter: cut after every double quote.
This follows the specification's description of segment texts and is
compared against the scanner. -/
def splitQ : List Char → List (List Char)
  | [] => []
  | c :: t =>
    if c = '"' then [c] :: splitQ t
    else
      match splitQ t with
      | [] => [[c]]
      | h :: r => (c :: h) :: r

theorem splitQ_step (s : List Char) (h : s ≠ []) :
    splitQ s = takeThroughQuote s :: splitQ (dropThroughQuote s) := by
  induction s with
  | nil => simp at h
  | cons c t ih =>
    by_cases hq : c = '"'
    · simp [splitQ, takeThroughQuote, dropThroughQuote, hq]
    · by_cases ht : t = []
      · subst ht
        simp [splitQ, takeThroughQuote, dropThroughQuote, hq]
      · simp only [splitQ, takeThroughQuote, dropThroughQuote, hq, if_false, ih ht]

theorem processUnquotedF_id (fuel : Nat) (q : Bool) (s : List Char)
    (h : s.length < fuel) : processUnquotedF (fun x => x) fuel q s = s := by
  induction fuel generalizing q s with
  | zero => omega
  | succ fuel ih =>
    by_cases hs : s = []
    · simp [processUnquotedF, hs]
    · have hlt := length_dropThroughQuote_lt s hs
      simp only [processUnquotedF, hs, if_false]
      rw [ih (!q) (dropThroughQuote s) (by omega)]
      by_cases hq : q <;>
        simp [hq, takeThroughQuote_append_dropThroughQuote]

theorem scanAuxF_concat (fuel : Nat) (q : Bool) (s : List Char)
    (h : s.length < fuel) :
    (scanAuxF fuel q s).foldr (fun p acc => p.1 ++ acc) [] = s := by
  induction fuel generalizing q s with
  | zero => omega
  | succ fuel ih =>
    by_cases hs : s = []
    · simp [scanAuxF, hs]
    · have hlt := length_dropThroughQuote_lt s hs
      simp only [scanAuxF, hs, if_false, List.foldr_cons]
      rw [ih (!q) (dropThroughQuote s) (by omega)]
      exact takeThroughQuote_append_dropThroughQuote s

theorem scanAuxF_texts (fuel : Nat) (q : Bool) (s : List Char)
    (h : s.length < fuel) :
    (scanAuxF fuel q s).map Prod.fst = splitQ s := by
  induction fuel generalizing q s with
  | zero => omega
  | succ fuel ih =>
    by_cases hs : s = []
    · subst hs
      simp [scanAuxF, splitQ]
    · have hlt := length_dropThroughQuote_lt s hs
      simp only [scanAuxF, hs, if_false, List.map_cons]
      rw [ih (!q) (dropThroughQuote s) (by omega), splitQ_step s hs]

theorem scanAuxF_flags (fuel : Nat) (q : Bool) (s : List Char)
    (i : Nat) (seg : List Char × Bool)
    (hseg : (scanAuxF fuel q s).get? i = some seg) :
    seg.2 = (q.xor (decide (i % 2 = 1))) := by
  induction fuel generalizing q s i with
  | zero => simp [scanAuxF] at hseg
  | succ fuel ih =>
    by_cases hs : s = []
    · simp [scanAuxF, hs] at hseg
    · cases i with
      | zero =>
        simp only [scanAuxF, hs, if_false, List.get?_cons_zero, Option.some_inj] at hseg
        subst hseg
        simp
      | succ i =>
        simp only [scanAuxF, hs, if_false, List.get?_cons_succ] at hseg
        have := ih (!q) (dropThroughQuote s) i hseg
        rw [this]
        by_cases hp : i % 2 = 1
        · have hp2 : ¬ ((i + 1) % 2 = 1) := by omega
          cases q <;> simp [hp, hp2]
        · have hp2 : (i + 1) % 2 = 1 := by omega
          cases q <;> simp [hp, hp2]

end SaferParserModel

namespace SaferParserModel

/-! ### The native JSON decoder (host runtime), integer-number fragment -/

/-- Skip JSON whitespace, tracking the absolute position. -/
def skipWsP : List Char → Nat → List Char × Nat
  | c :: t, p => if isWsChar c then skipWsP t (p + 1) else (c :: t, p)
  | [], p => ([], p)

/-- Bind-style helper threading parse errors (the error is the absolute
position of the offending character). -/
def consStr (c : Char) : Except Nat (List Char × List Char × Nat) →
    Except Nat (List Char × List Char × Nat)
  | .ok (cs, r, p) => .ok (c :: cs, r, p)
  | .error p => .error p

/-- Hexadecimal digit value. -/
def hexVal (c : Char) : Option Nat :=
  if '0' ≤ c ∧ c ≤ '9' then some (c.toNat - 48)
  else if 'a' ≤ c ∧ c ≤ 'f' then some (c.toNat - 87)
  else if 'A' ≤ c ∧ c ≤ 'F' then some (c.toNat - 55)
  else none

/-- String body parser, positioned right after the opening quote; decodes
the standard escapes and rejects raw control characters. -/
def parseStrF : Nat → List Char → Nat → Except Nat (List Char × List Char × Nat)
  | 0, _, p => .error p
  | f + 1, s, p =>
    match s with
    | [] => .error p
    | '"' :: t => .ok ([], t, p + 1)
    | '\\' :: t =>
      (match t with
       | '"' :: r => consStr '"' (parseStrF f r (p + 2))
       | '\\' :: r => consStr '\\' (parseStrF f r (p + 2))
       | '/' :: r => consStr '/' (parseStrF f r (p + 2))
       | 'b' :: r => consStr (Char.ofNat 8) (parseStrF f r (p + 2))
       | 'f' :: r => consStr (Char.ofNat 12) (parseStrF f r (p + 2))
       | 'n' :: r => consStr '\n' (parseStrF f r (p + 2))
       | 'r' :: r => consStr '\r' (parseStrF f r (p + 2))
       | 't' :: r => consStr '\t' (parseStrF f r (p + 2))
       | 'u' :: a :: b :: c :: d :: r =>
         (match hexVal a, hexVal b, hexVal c, hexVal d with
          | some ha, some hb, some hc, some hd =>
            consStr (Char.ofNat (((ha * 16 + hb) * 16 + hc) * 16 + hd))
              (parseStrF f r (p + 6))
          | _, _, _, _ => .error (p + 1))
       | _ => .error (p + 1))
    | c :: t =>
      if c.toNat < 32 then .error p
      else consStr c (parseStrF f t (p + 1))

/-- Number tail check: the model covers only the integer fragment of the
JSON number grammar, so a fraction or exponent is rejected here. -/
def finishNum (rest : List Char) (p : Nat) (v : Nat) (neg : Bool) :
    Except Nat (JsValue × List Char × Nat) :=
  match rest with
  | '.' :: _ => .error p
  | 'e' :: _ => .error p
  | 'E' :: _ => .error p
  | _ => .ok (.vNum (jsRoundNum (if neg then -(v : Int) else (v : Int))), rest, p)

/-- JSON number parser (integer fragment): optional minus, then either a
lone zero or a nonzero-led digit run; the value is rounded to a double. -/
def parseNumP (s : List Char) (p : Nat) : Except Nat (JsValue × List Char × Nat) :=
  let st : Bool × List Char × Nat :=
    match s with
    | '-' :: t => (true, t, p + 1)
    | _ => (false, s, p)
  match st.2.1 with
  | '0' :: t =>
    (match t with
     | c :: _ =>
       if isDigitChar c then .error (st.2.2 + 1)
       else finishNum t (st.2.2 + 1) 0 st.1
     | [] => finishNum [] (st.2.2 + 1) 0 st.1)
  | c :: t =>
    if isDigitChar c then
      let ds := (c :: t).takeWhile (fun x => isDigitChar x)
      finishNum ((c :: t).drop ds.length) (st.2.2 + ds.length) (natVal ds) st.1
    else .error st.2.2
  | [] => .error st.2.2

/-- Insert an object member, later duplicate keys overwriting in place. -/
def insertField (fs : List (List Char × JsValue)) (k : List Char) (v : JsValue) :
    List (List Char × JsValue) :=
  if fs.any (fun kv => kv.1 == k) then
    fs.map (fun kv => if kv.1 == k then (k, v) else kv)
  else fs ++ [(k, v)]

/-- Array items loop, parameterized by the value parser one fuel level
down so the recursion stays structural. -/
def parseItemsF (pv : List Char → Nat → Except Nat (JsValue × List Char × Nat)) :
    Nat → List Char → Nat → List JsValue → Except Nat (JsValue × List Char × Nat)
  | 0, _, p, _ => .error p
  | f + 1, s, p, acc =>
    match pv s p with
    | .error e => .error e
    | .ok (v, r1, p1) =>
      let w := skipWsP r1 p1
      match w.1 with
      | ',' :: r3 =>
        let w2 := skipWsP r3 (w.2 + 1)
        parseItemsF pv f w2.1 w2.2 (acc ++ [v])
      | ']' :: r3 => .ok (.vArr (acc ++ [v]), r3, w.2 + 1)
      | _ => .error w.2

/-- Object members loop, same parameterization. -/
def parseFieldsF (pv : List Char → Nat → Except Nat (JsValue × List Char × Nat)) :
    Nat → List Char → Nat → List (List Char × JsValue) →
    Except Nat (JsValue × List Char × Nat)
  | 0, _, p, _ => .error p
  | f + 1, s, p, acc =>
    match s with
    | '"' :: t =>
      (match parseStrF (t.length + 1) t (p + 1) with
       | .error e => .error e
       | .ok (k, r1, p1) =>
         let w := skipWsP r1 p1
         match w.1 with
         | ':' :: r2 =>
           let w2 := skipWsP r2 (w.2 + 1)
           (match pv w2.1 w2.2 with
            | .error e => .error e
            | .ok (v, r3, p3) =>
              let w3 := skipWsP r3 p3
              match w3.1 with
              | ',' :: r4 =>
                let w4 := skipWsP r4 (w3.2 + 1)
                parseFieldsF pv f w4.1 w4.2 (insertField acc k v)
              | '\x7d' :: r4 => .ok (.vObj (insertField acc k v), r4, w3.2 + 1)
              | _ => .error w3.2)
         | _ => .error w.2)
    | _ => .error p

/-- JSON value parser over explicit fuel. -/
def parseValueF : Nat → List Char → Nat → Except Nat (JsValue × List Char × Nat)
  | 0, _, p => .error p
  | f + 1, s, p =>
    match s with
    | [] => .error p
    | 'n' :: t =>
      if ("ull").toList.isPrefixOf t then .ok (.vNull, t.drop 3, p + 4) else .error p
    | 't' :: t =>
      if ("rue").toList.isPrefixOf t then .ok (.vBool true, t.drop 3, p + 4) else .error p
    | 'f' :: t =>
      if ("alse").toList.isPrefixOf t then .ok (.vBool false, t.drop 4, p + 5)
      else .error p
    | '"' :: t =>
      (match parseStrF (t.length + 1) t (p + 1) with
       | .error e => .error e
       | .ok (cs, r, p2) => .ok (.vStr cs, r, p2))
    | '[' :: t =>
      let w := skipWsP t (p + 1)
      (match w.1 with
       | ']' :: r => .ok (.vArr [], r, w.2 + 1)
       | _ => parseItemsF (parseValueF f) f w.1 w.2 [])
    | '\x7b' :: t =>
      let w := skipWsP t (p + 1)
      (match w.1 with
       | '\x7d' :: r => .ok (.vObj [], r, w.2 + 1)
       | _ => parseFieldsF (parseValueF f) f w.1 w.2 [])
    | '-' :: _ => parseNumP s p
    | c :: _ => if isDigitChar c then parseNumP s p else .error p

/-- Full-text JSON parse: leading and trailing whitespace allowed, nothing
else after the value.  The error is the offending absolute position. -/
def jsonParseRun (s : List Char) : Except Nat JsValue :=
  let w := skipWsP s 0
  match parseValueF (2 * s.length + 8) w.1 w.2 with
  | .error p => .error p
  | .ok (v, rest, p2) =>
    let w2 := skipWsP rest p2
    match w2.1 with
    | [] => .ok v
    | _ => .error w2.2

/-- One-based line and column of an absolute position. -/
def lineColOf (s : List Char) (pos : Nat) : Nat × Nat :=
  (s.take pos).foldl (fun lc c => if c = '\n' then (lc.1 + 1, 1) else (lc.1, lc.2 + 1))
    (1, 1)

/-- The native syntax error, in the host format that reports a one-based
line and column. -/
def syntaxErrAt (s : List Char) (pos : Nat) : JsErr :=
  let lc := lineColOf s pos
  ⟨ ("SyntaxError").toList,
    ("JSON.parse: unexpected character at line ").toList ++ natDigits lc.1 ++
      (" column ").toList ++ natDigits lc.2 ++ (" of the JSON data").toList ⟩

/-! ### Revival (JSON.parse reviver walk) -/

/-- A reviver: key and value to a value, possibly throwing. -/
def Reviver : Type := List Char → JsValue → Except JsErr JsValue

/-- Property read: throws on null and undefined, looks up objects, and
yields undefined on other primitives. -/
def getProp (v : JsValue) (key : List Char) : Except JsErr JsValue :=
  match v with
  | .vNull => .error ⟨ ("TypeError").toList,
      ("Cannot read properties of null").toList ⟩
  | .vUndefined => .error ⟨ ("TypeError").toList,
      ("Cannot read properties of undefined").toList ⟩
  | .vObj fs => .ok ((fs.lookup key).getD .vUndefined)
  | _ => .ok .vUndefined

/-- Object members revival: child first, then parent callback; an
undefined result deletes the member. -/
def reviveFields (wf : List Char → JsValue → Except JsErr JsValue) :
    List (List Char × JsValue) → Except JsErr (List (List Char × JsValue))
  | [] => .ok []
  | (k, v) :: rest =>
    match wf k v with
    | .error e => .error e
    | .ok v2 =>
      match reviveFields wf rest with
      | .error e => .error e
      | .ok rest2 =>
        match v2 with
        | .vUndefined => .ok rest2
        | _ => .ok ((k, v2) :: rest2)

/-- Array elements revival with index keys; undefined results stay as
undefined elements. -/
def reviveItems (wf : List Char → JsValue → Except JsErr JsValue) :
    Nat → List JsValue → Except JsErr (List JsValue)
  | _, [] => .ok []
  | i, v :: rest =>
    match wf (natDigits i) v with
    | .error e => .error e
    | .ok v2 =>
      match reviveItems wf (i + 1) rest with
      | .error e => .error e
      | .ok rest2 => .ok (v2 :: rest2)

/-- Bottom-up reviver walk with fuel one deeper than the value. -/
def walkReviveF (f : Reviver) : Nat → List Char → JsValue → Except JsErr JsValue
  | 0, _, _ => .error ⟨ ("InternalError").toList, ("model fuel exhausted").toList ⟩
  | fu + 1, k, v =>
    match v with
    | .vObj fs =>
      (match reviveFields (walkReviveF f fu) fs with
       | .error e => .error e
       | .ok fs2 => f k (.vObj fs2))
    | .vArr xs =>
      (match reviveItems (walkReviveF f fu) 0 xs with
       | .error e => .error e
       | .ok xs2 => f k (.vArr xs2))
    | v => f k v

/-- JSON.parse of the host runtime: parse, then run the reviver walk from
the root with the empty key. -/
def languageParse (s : List Char) (rev : Reviver) : Except JsErr JsValue :=
  match jsonParseRun s with
  | .error pos => .error (syntaxErrAt s pos)
  | .ok v => walkReviveF rev (2 * s.length + 8) [] v

/-! ### SaferParser.reviver and SaferParser.parse -/

/-- Mapping-table scan of the reviver: first pattern testing true against
the coerced payload wins; a converter mapping runs convertInt, a plain
mapping returns its constant. -/
def reviverLoop (sv : JsValue) (value : JsValue) :
    List Mapping → Except JsErr JsValue
  | [] => .ok value
  | m :: rest =>
    if patTest m.pattern (jsToString sv) then
      (if m.hasConv then convertIntV sv else .ok m.constant)
    else reviverLoop sv value rest

/-- SaferParser.reviver from json.js lines 240-255: read the wrapper key
(throwing on null or undefined), pass values without it through, and
otherwise scan the mapping table. -/
def reviver (_key : List Char) (value : JsValue) : Except JsErr JsValue :=
  match getProp value fprimeKey with
  | .error e => .error e
  | .ok .vUndefined => .ok value
  | .ok sv => reviverLoop sv value MAPPINGS

/-- The composite reviver of parse: the internal one first, then the
caller-supplied one. -/
def fullReviver (input : Reviver) : Reviver := fun k v =>
  match reviver k v with
  | .error e => .error e
  | .ok v1 => input k v1

/-- String.prototype.split on newline. -/
def splitNl : List Char → List (List Char)
  | [] => [[]]
  | c :: t =>
    if c = '\n' then [] :: splitNl t
    else
      match splitNl t with
      | [] => [[c]]
      | h :: r => (c :: h) :: r

/-- String.prototype.substring: clamp both ends into range and swap them
when reversed. -/
def jsSubstring (s : List Char) (a b : Int) : List Char :=
  let n := s.length
  let a2 : Nat := if a < 0 then 0 else if a > (n : Int) then n else a.toNat
  let b2 : Nat := if b < 0 then 0 else if b > (n : Int) then n else b.toNat
  let lo := min a2 b2
  let hi := max a2 b2
  (s.drop lo).take (hi - lo)

/-- First match of the pattern line-space-digits-space-column-space-digits
in a message, as the catch block's matcher finds it. -/
def lineColAt (s : List Char) : Option (Nat × Nat) :=
  if ("line ").toList.isPrefixOf s then
    let r := s.drop 5
    let d1 := r.takeWhile (fun c => isDigitChar c)
    if d1 = [] then none
    else
      let r2 := r.drop d1.length
      if (" column ").toList.isPrefixOf r2 then
        let r3 := r2.drop 8
        let d2 := r3.takeWhile (fun c => isDigitChar c)
        if d2 = [] then none else some (natVal d1, natVal d2)
      else none
  else none

/-- Scan for the first line-and-column match anywhere in the message. -/
def lineColMatch : List Char → Option (Nat × Nat)
  | [] => none
  | c :: t =>
    match lineColAt (c :: t) with
    | some r => some r
    | none => lineColMatch t

/-- The catch block of SaferParser.parse (json.js lines 111-125): when the
native message carries a line and column, rebuild a SyntaxError whose
message appends an 11-column window of the rewritten text centered on the
column (clamped by substring); otherwise rethrow the original error.  An
out-of-range line index reads undefined and throws a TypeError, as
substring on undefined would. -/
def errHandler (converted : List Char) (e : JsErr) : JsErr :=
  let message := errToString e
  match lineColMatch message with
  | none => e
  | some (l, c) =>
    if l = 0 then
      ⟨ ("TypeError").toList, ("Cannot read properties of undefined").toList ⟩
    else
      match (splitNl converted).get? (l - 1) with
      | none =>
        ⟨ ("TypeError").toList, ("Cannot read properties of undefined").toList ⟩
      | some line =>
        ⟨ ("SyntaxError").toList,
          message ++ (". Offending snippet: ").toList ++
            jsSubstring line ((c : Int) - 6) ((c : Int) + 5) ⟩

/-- SaferParser.parse from json.js lines 103-127: rewrite unquoted
segments, decode natively under the composite reviver, and enrich or
rethrow on failure. -/
def parse (json_string : List Char) (reviverOpt : Option Reviver) :
    Except JsErr JsValue :=
  let converted_data := processUnquoted json_string replaceFromString
  let input_reviver := reviverOpt.getD (fun _ v => .ok v)
  match languageParse converted_data (fullReviver input_reviver) with
  | .ok v => .ok v
  | .error e => .error (errHandler converted_data e)

end SaferParserModel

namespace SaferParserModel

/-! ### The encode side: replaceFromObject, stringify, postReplacer -/

/-- Loose equality of a value against a mapping-table constant. -/
def looseEqConst (v : JsValue) (c : JsValue) : Bool :=
  match c with
  | .vNum m => looseEqNum v m
  | .vNull => looseEqNull v
  | _ => false

/-- The isString test of the source applied to a mapping constant. -/
def constIsString (c : JsValue) : Bool :=
  match c with
  | .vStr _ => true
  | _ => false

/-- The string carried by a string-typed mapping constant. -/
def constStr (c : JsValue) : List Char :=
  match c with
  | .vStr s => s
  | _ => []

/-- The wrapper object substituted for a matched value: its payload is the
literal text null for values loosely equal to null and the ToString of the
value otherwise. -/
def wrapObj (value : JsValue) : JsValue :=
  .vObj [(fprimeKey,
    .vStr (if looseEqNull value then ("null").toList else jsToString value))]

/-- The mapping scan of replaceFromObject: a non-string constant matches by
loose equality, a string constant by typeof comparison. -/
def replObjLoop (value : JsValue) : List Mapping → JsValue
  | [] => value
  | m :: rest =>
    if (!constIsString m.constant && looseEqConst value m.constant) ||
        (constIsString m.constant && (typeofStr value == constStr m.constant)) then
      wrapObj value
    else replObjLoop value rest

/-- SaferParser.replaceFromObject from json.js lines 175-185. -/
def replaceFromObject (_key : List Char) (value : JsValue) : JsValue :=
  replObjLoop value MAPPINGS

/-- The replacer argument of stringify: absent, a key allow-list, or a
transform function. -/
inductive ReplacerArg where
  | noRep : ReplacerArg
  | keys : List (List Char) → ReplacerArg
  | fn : (List Char → JsValue → JsValue) → ReplacerArg

/-- The composite replacer built inside SaferParser.stringify (json.js
lines 151-163), shaped after the source: the array test with a missing key
returns undefined, otherwise a function replacer runs first and the safe
replacer last. -/
def fullReplacer (replacer : ReplacerArg) (key : List Char) (value : JsValue) :
    JsValue :=
  if (match replacer with
      | .keys ks => !(ks.contains key)
      | _ => false) then .vUndefined
  else
    let value2 :=
      match replacer with
      | .fn f => f key value
      | _ => value
    replaceFromObject key value2

/-- Cell of the claim-8 comparison, worded after the specification: test
the value against the table entries in order, first match substituting the
wrapper. -/
def specMapValue (value : JsValue) : JsValue :=
  if looseEqNum value .negInf then wrapObj value
  else if looseEqNum value .inf then wrapObj value
  else if looseEqNum value .nan then wrapObj value
  else if looseEqNull value then wrapObj value
  else if typeofStr value == ("bigint").toList then wrapObj value
  else value

/-- The specification's composite reduction callback: drop fields whose
key is outside the allow-list, else transform first, then map the value
through the table. -/
def specCompositeReplacer (replacer : ReplacerArg) (key : List Char)
    (value : JsValue) : JsValue :=
  match replacer with
  | .keys ks => if ks.contains key then specMapValue value else .vUndefined
  | .fn f => specMapValue (f key value)
  | .noRep => specMapValue value

/-- Hexadecimal digit character. -/
def hexChar (n : Nat) : Char :=
  if n < 10 then digitChar n else Char.ofNat (87 + n)

/-- JSON string escaping of the native encoder. -/
def escJson : List Char → List Char
  | [] => []
  | c :: t =>
    (if c = '"' then ['\\', '"']
     else if c = '\\' then ['\\', '\\']
     else if c = '\n' then ['\\', 'n']
     else if c = '\r' then ['\\', 'r']
     else if c = '\t' then ['\\', 't']
     else if c.toNat = 8 then ['\\', 'b']
     else if c.toNat = 12 then ['\\', 'f']
     else if c.toNat < 32 then
       ['\\', 'u', '0', '0', hexChar (c.toNat / 16), hexChar (c.toNat % 16)]
     else [c]) ++ escJson t

/-- A quoted JSON string literal. -/
def quoteJson (s : List Char) : List Char := '"' :: (escJson s ++ ['"'])

/-- Array items serialization: undefined elements print as null. -/
def serializeItems (sf : List Char → JsValue → Except JsErr (Option (List Char))) :
    Nat → List JsValue → Except JsErr (List (List Char))
  | _, [] => .ok []
  | i, v :: rest =>
    match sf (natDigits i) v with
    | .error e => .error e
    | .ok r =>
      match serializeItems sf (i + 1) rest with
      | .error e => .error e
      | .ok rs => .ok ((r.getD (("null").toList)) :: rs)

/-- Object members serialization: undefined-valued members are omitted. -/
def serializeFields (sf : List Char → JsValue → Except JsErr (Option (List Char))) :
    List (List Char × JsValue) → Except JsErr (List (List Char))
  | [] => .ok []
  | (k, v) :: rest =>
    match sf k v with
    | .error e => .error e
    | .ok r =>
      match serializeFields sf rest with
      | .error e => .error e
      | .ok rs =>
        match r with
        | none => .ok rs
        | some rv => .ok ((quoteJson k ++ ':' :: rv) :: rs)

/-- Join serialized member texts with commas. -/
def joinSep : List (List Char) → List Char
  | [] => []
  | [x] => x
  | x :: xs => x ++ ',' :: joinSep xs

/-- The native serializer under a replacer callback: the callback runs on
every key-value pair first, then the result is serialized by type.  NaN
and the infinities print as null; a surviving BigInt throws.  The fuel
returns an internal error only beyond the modelled nesting bound. -/
def serializeF (frep : List Char → JsValue → JsValue) :
    Nat → List Char → JsValue → Except JsErr (Option (List Char))
  | 0, _, _ => .error ⟨ ("InternalError").toList, ("model fuel exhausted").toList ⟩
  | fu + 1, key, v =>
    match frep key v with
    | .vUndefined => .ok none
    | .vNull => .ok (some (("null").toList))
    | .vBool b => .ok (some (if b then ("true").toList else ("false").toList))
    | .vNum n =>
      .ok (some (match n with
        | .int i => jsNumToString (.int i)
        | _ => ("null").toList))
    | .vStr s => .ok (some (quoteJson s))
    | .vBigInt _ =>
      .error ⟨ ("TypeError").toList,
        ("Do not know how to serialize a BigInt").toList ⟩
    | .vArr xs =>
      (match serializeItems (serializeF frep fu) 0 xs with
       | .error e => .error e
       | .ok rs => .ok (some ('[' :: (joinSep rs ++ [']']))))
    | .vObj fs =>
      (match serializeFields (serializeF frep fu) fs with
       | .error e => .error e
       | .ok rs => .ok (some ('\x7b' :: (joinSep rs ++ ['\x7d']))))

/-- JSON.stringify of the host runtime under a replacer function, rooted
at the empty key; none models the undefined result.  The fixed fuel covers
any nesting the concrete theorems use. -/
def languageStringify (data : JsValue) (frep : List Char → JsValue → JsValue) :
    Except JsErr (Option (List Char)) :=
  serializeF frep 64 [] data

/-- Match of the placeholder-wrapper JSON shape at the head of the text,
tolerant of internal whitespace: returns the payload and the rest after
the match. -/
def postMatchAt (s : List Char) : Option (List Char × List Char) :=
  match s with
  | '\x7b' :: t =>
    let t1 := t.dropWhile (fun c => isWsChar c)
    if ("\"fprime\x7breplacement\"").toList.isPrefixOf t1 then
      let t2 := t1.drop 20
      let t3 := t2.dropWhile (fun c => isWsChar c)
      match t3 with
      | ':' :: t4 =>
        let t5 := t4.dropWhile (fun c => isWsChar c)
        (match t5 with
         | '"' :: t6 =>
           let payload := t6.takeWhile (fun c => c ≠ '"')
           if payload = [] then none
           else
             (match t6.drop payload.length with
              | '"' :: t7 =>
                let t8 := t7.dropWhile (fun c => isWsChar c)
                (match t8 with
                 | '\x7d' :: t9 => some (payload, t9)
                 | _ => none)
              | _ => none)
         | _ => none)
      | _ => none
    else none
  | _ => none

/-- Global left-to-right non-overlapping replacement of the wrapper shape
by its bare payload. -/
def postReplacerF : Nat → List Char → List Char
  | 0, s => s
  | _ + 1, [] => []
  | f + 1, c :: t =>
    match postMatchAt (c :: t) with
    | some pr => pr.1 ++ postReplacerF f pr.2
    | none => c :: postReplacerF f t

/-- SaferParser.postReplacer from json.js lines 196-198. -/
def postReplacer (json_string : List Char) : List Char :=
  postReplacerF (json_string.length + 1) json_string

/-- SaferParser.stringify from json.js lines 150-169: native stringify
under the composite replacer, then the textual post-pass.  When the native
result is undefined the post-pass calls replace on undefined and throws. -/
def stringify (data : JsValue) (replacer : ReplacerArg) :
    Except JsErr (List Char) :=
  match languageStringify data (fullReplacer replacer) with
  | .error e => .error e
  | .ok none =>
    .error ⟨ ("TypeError").toList,
      ("Cannot read properties of undefined").toList ⟩
  | .ok (some json_string) => .ok (postReplacer json_string)

end SaferParserModel

namespace SaferParserModel

/-! ### Claim theorems -/

/-- Claim C3: concatenating, in order, the text of all segments produced
by the quote-state scanner reproduces the input exactly, for every input
(hence for any quote count); equivalently, processUnquoted with the
identity rewrite function returns the input unchanged.  Confirmed. -/
theorem claim_C3_segment_identity (s : List Char) :
    processUnquoted s (fun x => x) = s ∧
    (scan s).foldr (fun p acc => p.1 ++ acc) [] = s :=
  ⟨ processUnquotedF_id (s.length + 1) false s (Nat.lt_succ_self _),
    scanAuxF_concat (s.length + 1) false s (Nat.lt_succ_self _) ⟩

/-- Claim C4, counterexample: on the six-character input
quote a backslash quote b quote (a single valid JSON string whose middle
quote is backslash-escaped), the scanner ends the quoted segment at the
ESCAPED quote: the segment list is quote (unquoted flag), a-backslash-quote
(quoted), b-quote (unquoted).  The claim says a backslash-escaped quote
inside a quoted run does not end the quoted segment, so the quoted segment
should have extended to the final quote; it does not. -/
theorem claim_C4_counterexample :
    scan (("\"a\\\"b\"").toList) =
      [(("\"").toList, false), (("a\\\"").toList, true), (("b\"").toList, false)] := by
  rfl

/-- Claim C4, amended: the scanner's flag toggles at EVERY double-quote
character, escaped or not: each segment is the text up to and including
the next double quote (or to end of text), character-level splitQ agrees
with the scanner's segment texts, and the flag of the i-th segment is
exactly odd-or-even parity of i starting unquoted. -/
theorem claim_C4_boundaries (s : List Char) :
    (scan s).map Prod.fst = splitQ s ∧
    (∀ i seg, (scan s).get? i = some seg → seg.2 = decide (i % 2 = 1)) := by
  constructor
  · exact scanAuxF_texts (s.length + 1) false s (Nat.lt_succ_self _)
  · intro i seg h
    have := scanAuxF_flags (s.length + 1) false s i seg h
    simpa using this

/-- Witness for claim C4: on a concrete input the second segment (index
one) carries the quoted flag. -/
theorem claim_C4_witness :
    ((("cd\"").toList, true) : List Char × Bool).2 = decide (1 % 2 = 1) :=
  (claim_C4_boundaries (("ab\"cd\"e").toList)).2 1 ((("cd\"").toList, true)) (by rfl)

end SaferParserModel

namespace SaferParserModel

/-- Claim C1 (code bug): the round-trip fails for not-a-number.  The
mapping test of replaceFromObject uses loose equality, and NaN is not
loosely equal to itself, so encode(NaN) never substitutes the wrapper: the
native encoder prints the surviving NaN as the literal null, and decoding
that yields explicit null, not NaN.  (The negative-infinity variant
breaks on the decode side instead: the Infinity mapping re-matches inside
the payload text that the negative-infinity mapping just produced, and the
rewritten text is no longer valid JSON.) -/
theorem claim_C1_nan_roundtrip_fails :
    stringify (.vNum .nan) .noRep = .ok (("null").toList) ∧
    parse (("null").toList) none = .ok .vNull ∧
    JsValue.vNull ≠ .vNum .nan ∧
    (match parse (("-Infinity").toList) none with
     | .ok _ => False
     | .error e => e.name = ("SyntaxError").toList) := by
  refine ⟨by rfl, by rfl, ?_, by rfl⟩
  exact fun h => JsValue.noConfusion h

/-- Claim C9 (code bug): on the input open-bracket null comma null
close-bracket, the rewritten text (only the FIRST null is wrapped) is
valid JSON and the native decode with a pass-through reviver succeeds, yet
SaferParser.parse throws a TypeError: the reviver reads the wrapper
property off the surviving bare null.  So decode can fail although the
rewritten text is valid JSON, and the failure is not the enriched
DecodeError shape. -/
theorem claim_C9_null_crash :
    languageParse (processUnquoted (("[null, null]").toList) replaceFromString)
        (fun _ v => .ok v) =
      .ok (.vArr [.vObj [(fprimeKey, .vStr (("null").toList))], .vNull]) ∧
    parse (("[null, null]").toList) none =
      .error ⟨ ("TypeError").toList, ("Cannot read properties of null").toList ⟩ := by
  exact ⟨by rfl, by rfl⟩

/-- Claim C10: because the mapping test uses loose equality against the
null sentinel and undefined is loosely equal to null, encoding undefined
(or an object field holding undefined) substitutes a wrapper with payload
null, and the output carries the literal text null instead of omitting
the value as the native encoder would.  Confirmed. -/
theorem claim_C10_undefined_encodes_null :
    replaceFromObject [] .vUndefined = .vObj [(fprimeKey, .vStr (("null").toList))] ∧
    stringify .vUndefined .noRep = .ok (("null").toList) ∧
    stringify (.vObj [(("a").toList, .vUndefined)]) .noRep =
      .ok (("\x7b\"a\":null\x7d").toList) := by
  exact ⟨by rfl, by rfl, by rfl⟩

end SaferParserModel

namespace SaferParserModel

/-- The pre-decode rewriter as the amended claim words it: for each token
definition in table order, on the progressively rewritten text, replace
only the FIRST match of its pattern with the quoted placeholder-wrapper
literal carrying the matched text as payload. -/
def specPreDecodeRewrite (seg : List Char) : List Char :=
  let s1 := replaceFirst (.lit (("-Infinity").toList)) wrapTemplate seg
  let s2 := replaceFirst (.lit (("Infinity").toList)) wrapTemplate s1
  let s3 := replaceFirst (.lit (("NaN").toList)) wrapTemplate s2
  let s4 := replaceFirst (.lit (("null").toList)) wrapTemplate s3
  replaceFirst .bigTok wrapTemplate s4

/-- Claim C2, counterexample: the segment null-space-null has two
non-overlapping matches of the null token, but the rewriter replaces only
the first; the second null survives bare, so the result differs from the
both-replaced text the claim demands. -/
theorem claim_C2_counterexample :
    replaceFromString (("null null").toList) =
      ("\x7b\"fprime\x7breplacement\": \"null\"\x7d null").toList ∧
    replaceFromString (("null null").toList) ≠
      ("\x7b\"fprime\x7breplacement\": \"null\"\x7d \x7b\"fprime\x7breplacement\": \"null\"\x7d").toList := by
  exact ⟨by rfl, by decide⟩

/-- Claim C2, amended: for every token definition taken in table order,
the rewriter replaces only the FIRST match of that token's pattern within
the progressively rewritten segment (the regular expressions carry no
global flag), the replacement being the quoted placeholder-wrapper
literal with the matched text as payload.  The first conjunct identifies
the source rewriter with the spec-worded per-token chain; the second
characterizes a single replacement step at its first match. -/
theorem claim_C2_first_match_only (seg : List Char) :
    replaceFromString seg = specPreDecodeRewrite seg ∧
    (∀ (p : Pat) (s : List Char) (i len : Nat), p.findIdx s = some (i, len) →
      replaceFirst p wrapTemplate s =
        s.take i ++ wrapPre ++ (s.drop i).take len ++ wrapPost ++ s.drop (i + len)) := by
  constructor
  · rfl
  · intro p s i len h
    simp [replaceFirst, h, wrapTemplate]

/-- Witness for claim C2: the null token's first match in x-null sits at
index one, and the step rewrites exactly there. -/
theorem claim_C2_witness :
    replaceFirst (.lit (("null").toList)) wrapTemplate (("xnull").toList) =
      (("xnull").toList).take 1 ++ wrapPre ++
        ((("xnull").toList).drop 1).take 4 ++ wrapPost ++ (("xnull").toList).drop 5 :=
  (claim_C2_first_match_only []).2 (.lit (("null").toList)) (("xnull").toList) 1 4 (by rfl)

end SaferParserModel

namespace SaferParserModel

theorem takeWhile_all {p : Char → Bool} :
    ∀ s : List Char, (∀ c ∈ s, p c = true) → s.takeWhile p = s
  | [], _ => rfl
  | c :: t, h => by
    have hc := h c (by simp)
    have ht := takeWhile_all t (fun x hx => h x (by simp [hx]))
    simp [List.takeWhile, hc, ht]

theorem findLitIdx_eq_none (c0 : Char) (pr : List Char) :
    ∀ s : List Char, (∀ x ∈ s, x ≠ c0) → findLitIdx (c0 :: pr) s = none
  | [], _ => by simp [findLitIdx]
  | c :: t, h => by
    have hc : c ≠ c0 := h c (by simp)
    have hpre : (c0 :: pr).isPrefixOf (c :: t) = false := by
      simp [List.isPrefixOf]
      intro he
      exact absurd he.symm hc
    have ht := findLitIdx_eq_none c0 pr t (fun x hx => h x (by simp [hx]))
    simp [findLitIdx, hpre, ht]

theorem findBigIdx_eq_none :
    ∀ s : List Char, (∀ x ∈ s, x ≠ ' ') → findBigIdx s = none
  | [], _ => rfl
  | c :: t, h => by
    have hc : c ≠ ' ' := h c (by simp)
    have ht := findBigIdx_eq_none t (fun x hx => h x (by simp [hx]))
    simp [findBigIdx, bigMatchAt, hc, ht]

theorem takeThroughQuote_no_quote :
    ∀ s : List Char, (∀ c ∈ s, c ≠ '"') →
      takeThroughQuote s = s ∧ dropThroughQuote s = []
  | [], _ => ⟨rfl, rfl⟩
  | c :: t, h => by
    have hc : c ≠ '"' := h c (by simp)
    have ht := takeThroughQuote_no_quote t (fun x hx => h x (by simp [hx]))
    simp [takeThroughQuote, dropThroughQuote, hc, ht.1, ht.2]

theorem replaceFirst_none (p : Pat) (tmpl : List Char → List Char) (s : List Char)
    (h : p.findIdx s = none) : replaceFirst p tmpl s = s := by
  simp [replaceFirst, h]

theorem processUnquoted_no_quote (s : List Char) (hne : s ≠ [])
    (h : ∀ c ∈ s, c ≠ '"') (f : List Char → List Char) :
    processUnquoted s f = f s := by
  have htq := takeThroughQuote_no_quote s h
  obtain ⟨c, t, rfl⟩ := List.exists_cons_of_ne_nil hne
  simp only [processUnquoted, processUnquotedF, if_false]
  rw [htq.1, htq.2]
  simp [processUnquotedF]

theorem replaceFromString_no_tokens (s : List Char)
    (hm : ∀ x ∈ s, x ≠ '-' ∧ x ≠ 'I' ∧ x ≠ 'N' ∧ x ≠ 'n' ∧ x ≠ ' ') :
    replaceFromString s = s := by
  have e1 : ("-Infinity").toList = '-' :: ("Infinity").toList := rfl
  have e2 : ("Infinity").toList = 'I' :: ("nfinity").toList := rfl
  have e3 : ("NaN").toList = 'N' :: ("aN").toList := rfl
  have e4 : ("null").toList = 'n' :: ("ull").toList := rfl
  have h1 : findLitIdx (("-Infinity").toList) s = none := by
    rw [e1]
    exact findLitIdx_eq_none '-' _ s (fun x hx => (hm x hx).1)
  have h2 : findLitIdx (("Infinity").toList) s = none := by
    rw [e2]
    exact findLitIdx_eq_none 'I' _ s (fun x hx => (hm x hx).2.1)
  have h3 : findLitIdx (("NaN").toList) s = none := by
    rw [e3]
    exact findLitIdx_eq_none 'N' _ s (fun x hx => (hm x hx).2.2.1)
  have h4 : findLitIdx (("null").toList) s = none := by
    rw [e4]
    exact findLitIdx_eq_none 'n' _ s (fun x hx => (hm x hx).2.2.2.1)
  have h5 : findBigIdx s = none :=
    findBigIdx_eq_none s (fun x hx => (hm x hx).2.2.2.2)
  have r1 := replaceFirst_none (.lit (("-Infinity").toList)) wrapTemplate s
    (by simp only [Pat.findIdx, h1, Option.map_none'])
  have r2 := replaceFirst_none (.lit (("Infinity").toList)) wrapTemplate s
    (by simp only [Pat.findIdx, h2, Option.map_none'])
  have r3 := replaceFirst_none (.lit (("NaN").toList)) wrapTemplate s
    (by simp only [Pat.findIdx, h3, Option.map_none'])
  have r4 := replaceFirst_none (.lit (("null").toList)) wrapTemplate s
    (by simp only [Pat.findIdx, h4, Option.map_none'])
  have r5 := replaceFirst_none .bigTok wrapTemplate s (by simp only [Pat.findIdx, h5])
  have hshape : replaceFromString s =
      replaceFirst .bigTok wrapTemplate
        (replaceFirst (.lit (("null").toList)) wrapTemplate
          (replaceFirst (.lit (("NaN").toList)) wrapTemplate
            (replaceFirst (.lit (("Infinity").toList)) wrapTemplate
              (replaceFirst (.lit (("-Infinity").toList)) wrapTemplate s)))) := rfl
  rw [hshape, r1, r2, r3, r4, r5]

/-- Claim C6, counterexample: the seventeen-digit run 9007199254740993
(one unit beyond the largest exactly representable odd integer) placed
directly after an opening bracket is NOT rewritten to the
arbitrary-precision placeholder, because the big-integer pattern requires
a leading space; the native decoder then rounds it to 9007199254740992.
The claim says the preceding character does not matter. -/
theorem claim_C6_counterexample :
    parse (("[9007199254740993]").toList) none =
      .ok (.vArr [.vNum (.int 9007199254740992)]) := by
  rfl

/-- Claim C6, amended: an unquoted run of ten or more decimal digits
decodes to an arbitrary-precision integer only when the run is immediately
preceded by a space character; after a bracket, colon or comma with no
space the run is left for the native decoder and decodes to a rounded
native number.  The last conjunct shows generally that a pure digit run
enclosed in brackets passes the rewriter untouched. -/
theorem claim_C6_space_required :
    parse (("[ 9007199254740993]").toList) none =
      .ok (.vArr [.vBigInt 9007199254740993]) ∧
    parse (("\x7b\"a\": 9007199254740993\x7d").toList) none =
      .ok (.vObj [(("a").toList, .vBigInt 9007199254740993)]) ∧
    parse (("\x7b\"a\":9007199254740993\x7d").toList) none =
      .ok (.vObj [(("a").toList, .vNum (.int 9007199254740992))]) ∧
    (∀ ds : List Char, (∀ c ∈ ds, isDigitChar c = true) →
      processUnquoted ('[' :: (ds ++ [']'])) replaceFromString =
        '[' :: (ds ++ [']'])) := by
  refine ⟨by rfl, by rfl, by rfl, ?_⟩
  intro ds hds
  have hchars : ∀ x ∈ '[' :: (ds ++ [']']),
      x ≠ '-' ∧ x ≠ 'I' ∧ x ≠ 'N' ∧ x ≠ 'n' ∧ x ≠ ' ' ∧ x ≠ '"' := by
    intro x hx
    rcases List.mem_cons.mp hx with hx | hx
    · subst hx
      refine ⟨by decide, by decide, by decide, by decide, by decide, by decide⟩
    · rcases List.mem_append.mp hx with hx | hx
      · have hd := hds x hx
        refine ⟨?_, ?_, ?_, ?_, ?_, ?_⟩ <;>
          · intro he
            subst he
            simp [isDigitChar] at hd
      · have : x = ']' := by simpa using hx
        subst this
        refine ⟨by decide, by decide, by decide, by decide, by decide, by decide⟩
  rw [processUnquoted_no_quote _ (by simp) (fun c hc => (hchars c hc).2.2.2.2.2)]
  exact replaceFromString_no_tokens _ (fun x hx => ⟨(hchars x hx).1, (hchars x hx).2.1,
    (hchars x hx).2.2.1, (hchars x hx).2.2.2.1, (hchars x hx).2.2.2.2.1⟩)

/-- Witness for claim C6: the digit-run conjunct applied to the seventeen
digits of 9007199254740993. -/
theorem claim_C6_witness :
    processUnquoted ('[' :: ((("9007199254740993").toList) ++ [']'])) replaceFromString =
      '[' :: ((("9007199254740993").toList) ++ [']']) :=
  claim_C6_space_required.2.2.2 (("9007199254740993").toList) (by decide)

end SaferParserModel

namespace SaferParserModel

theorem jsSubstring_window (line : List Char) (c : Nat) (h6 : 6 ≤ c)
    (hlen : c + 5 ≤ line.length) :
    jsSubstring line ((c : Int) - 6) ((c : Int) + 5) = (line.drop (c - 6)).take 11 := by
  unfold jsSubstring
  have ha1 : ¬ ((c : Int) - 6 < 0) := by omega
  have ha2 : ¬ ((c : Int) - 6 > (line.length : Int)) := by omega
  have hb1 : ¬ ((c : Int) + 5 < 0) := by omega
  have hb2 : ¬ ((c : Int) + 5 > (line.length : Int)) := by omega
  simp only [ha1, hb1, ha2, hb2, if_false]
  have hta : ((c : Int) - 6).toNat = c - 6 := by omega
  have htb : ((c : Int) + 5).toNat = c + 5 := by omega
  rw [hta, htb]
  have hmin : min (c - 6) (c + 5) = c - 6 := by omega
  have hmax : max (c - 6) (c + 5) = c + 5 := by omega
  rw [hmin, hmax]
  congr 1
  omega

/-- Claim C7, counterexample: decoding the malformed text
open-brace quote a quote colon space comma close-brace reports column 7,
and the appended snippet is the substring-clamped window quote a quote
colon space comma close-brace, which has SEVEN characters, not the eleven
the claim asserts (the window start is in range but its end exceeds the
line, so substring clamps it). -/
theorem claim_C7_counterexample :
    parse (("\x7b\"a\": ,\x7d").toList) none =
      .error ⟨ ("SyntaxError").toList,
        ("SyntaxError: JSON.parse: unexpected character at line 1 column 7 of the JSON data. Offending snippet: \"a\": ,\x7d").toList ⟩ ∧
    (("\"a\": ,\x7d").toList).length ≠ 11 := by
  exact ⟨by rfl, by decide⟩

/-- Claim C7, amended: when the native error reports a line and column,
decode fails with a SyntaxError whose message appends the substring of the
REWRITTEN text spanning columns c-5 through c+5 of the reported line,
clamped to the line; the window has exactly eleven characters centered on
the column whenever its bounds lie within the line.  When no line and
column can be extracted, the original failure is propagated unchanged.
The third conjunct runs a concrete decode whose window fits (eleven
characters), and the fourth shows the snippet is drawn from the rewritten
text: the input bracket null comma space n-u-l close-bracket is rewritten
before decoding, and the snippet contains the wrapper literal's
quote-brace text, which never occurs in the original input. -/
theorem claim_C7_error_enrichment :
    (∀ (converted : List Char) (e : JsErr),
      lineColMatch (errToString e) = none → errHandler converted e = e) ∧
    (∀ (line : List Char) (c : Nat), 6 ≤ c → c + 5 ≤ line.length →
      jsSubstring line ((c : Int) - 6) ((c : Int) + 5) = (line.drop (c - 6)).take 11 ∧
      ((line.drop (c - 6)).take 11).length = 11) ∧
    parse (("\x7b\"a\": ,xxxxxxxx\x7d").toList) none =
      .error ⟨ ("SyntaxError").toList,
        ("SyntaxError: JSON.parse: unexpected character at line 1 column 7 of the JSON data. Offending snippet: \"a\": ,xxxxx").toList ⟩ ∧
    parse (("[null, nul]").toList) none =
      .error ⟨ ("SyntaxError").toList,
        ("SyntaxError: JSON.parse: unexpected character at line 1 column 34 of the JSON data. Offending snippet: l\"\x7d, nul]").toList ⟩ := by
  refine ⟨?_, ?_, by rfl, by rfl⟩
  · intro converted e h
    simp [errHandler, h]
  · intro line c h6 hlen
    refine ⟨jsSubstring_window line c h6 hlen, ?_⟩
    simp
    omega

/-- Witness for claim C7: a TypeError message carries no line and column,
so the handler rethrows it unchanged. -/
theorem claim_C7_witness :
    errHandler (("x").toList) ⟨ ("TypeError").toList, ("boom").toList ⟩ =
      ⟨ ("TypeError").toList, ("boom").toList ⟩ :=
  claim_C7_error_enrichment.1 (("x").toList)
    ⟨ ("TypeError").toList, ("boom").toList ⟩ (by rfl)

end SaferParserModel

namespace SaferParserModel

theorem replaceFromObject_eq_specMapValue (key : List Char) (v : JsValue) :
    replaceFromObject key v = specMapValue v := by
  simp [replaceFromObject, replObjLoop, MAPPINGS, specMapValue, looseEqConst,
    constIsString, constStr]

/-- Claim C8, counterexample: with the key allow-list containing only the
key a, stringifying the object with that single key a throws a TypeError
instead of serializing the field: the composite callback is also invoked
on the ROOT with the empty key, which is absent from any ordinary
allow-list, so the native encoder returns undefined and the textual
post-pass calls replace on undefined.  The claim says an absent key only
makes that field absent. -/
theorem claim_C8_counterexample :
    stringify (.vObj [(("a").toList, .vNum (.int 1))]) (.keys [("a").toList]) =
      .error ⟨ ("TypeError").toList,
        ("Cannot read properties of undefined").toList ⟩ := by
  rfl

/-- Claim C8, amended: the composite reduction callback behaves, for EVERY
key-value pair including the root's empty key and array index keys, as:
(1) a key allow-list replacer yields undefined whenever the current key is
absent (which omits object fields, but nulls array elements and aborts the
whole stringify at the root); (2) otherwise a function replacer transforms
the value first; (3) the possibly transformed value is then tested against
the mapping table in order under loose equality (typeof for the bigint
tag) and on first match becomes a wrapper whose payload is the value's
text, with the loose-null payload being the literal text null; values
matching no entry pass through, including NaN, which fails its own
table entry because NaN is not loosely equal to itself.  The source
callback equals the spec-worded callback on all inputs. -/
theorem claim_C8_composite_replacer (replacer : ReplacerArg) (key : List Char)
    (value : JsValue) :
    fullReplacer replacer key value = specCompositeReplacer replacer key value ∧
    wrapObj .vNull = .vObj [(fprimeKey, .vStr (("null").toList))] ∧
    replaceFromObject key (.vNum .nan) = .vNum .nan := by
  refine ⟨?_, by rfl, by rfl⟩
  cases replacer with
  | noRep =>
    simpa [fullReplacer, specCompositeReplacer] using
      replaceFromObject_eq_specMapValue key value
  | keys ks =>
    by_cases hk : ks.contains key
    · simp [fullReplacer, specCompositeReplacer, hk,
        replaceFromObject_eq_specMapValue]
    · simp [fullReplacer, specCompositeReplacer, hk,
        replaceFromObject_eq_specMapValue]
  | fn f =>
    simpa [fullReplacer, specCompositeReplacer] using
      replaceFromObject_eq_specMapValue key (f key value)

end SaferParserModel

namespace SaferParserModel

theorem not_ws_of_digit (c : Char) (h : isDigitChar c = true) : isWsChar c = false := by
  cases hb : isWsChar c
  · rfl
  · exfalso
    simp [isWsChar] at hb
    rcases hb with ((h1 | h1) | h1) | h1 <;> subst h1 <;> exact absurd h (by decide)

theorem digit_ne (c d : Char) (h : isDigitChar c = true)
    (hd : isDigitChar d = false) : c ≠ d := by
  intro he
  subst he
  rw [h] at hd
  cases hd

theorem jsTrim_all_digits (s : List Char) (h : ∀ c ∈ s, isDigitChar c = true) :
    jsTrim s = s := by
  have h1 : s.dropWhile (fun c => isWsChar c) = s := by
    cases s with
    | nil => rfl
    | cons c t =>
      have := not_ws_of_digit c (h c (by simp))
      simp [List.dropWhile, this]
  have h2 : s.reverse.dropWhile (fun c => isWsChar c) = s.reverse := by
    cases hr : s.reverse with
    | nil => rfl
    | cons c t =>
      have hc : c ∈ s := by
        rw [← List.mem_reverse, hr]
        simp
      have := not_ws_of_digit c (h c hc)
      simp [List.dropWhile, this]
  unfold jsTrim
  rw [h1, h2, List.reverse_reverse]

theorem jsParseInt_natDigits (n : Nat) (h : n ≤ 2 ^ 53) :
    jsParseInt (natDigits n) = .int (n : Int) := by
  have hd := natDigits_all_digit n
  have hne := natDigits_ne_nil n
  obtain ⟨c, t, hct⟩ := List.exists_cons_of_ne_nil hne
  have hcmem : c ∈ natDigits n := by
    rw [hct]
    simp
  have hc : isDigitChar c = true := hd c hcmem
  have hdrop : (natDigits n).dropWhile (fun x => isWsChar x) = natDigits n := by
    rw [hct]
    have := not_ws_of_digit c hc
    simp [List.dropWhile, this]
  have hcm : c ≠ '-' := digit_ne c '-' hc (by decide)
  have hcp : c ≠ '+' := digit_ne c '+' hc (by decide)
  have htake : (natDigits n).takeWhile (fun x => isDigitChar x) = natDigits n :=
    takeWhile_all _ hd
  unfold jsParseInt
  rw [hdrop, hct]
  simp only [hcm, hcp, if_false, ← hct, htake, hne, ite_false]
  rw [natVal_natDigits]
  simpa using jsRoundNum_small n h

theorem jsNumToString_small (n : Nat) (h : n < 2 ^ 53) :
    jsNumToString (.int (n : Int)) = natDigits n := by
  have habs : (n : Int).natAbs = n := Int.natAbs_ofNat n
  have hneg : ¬ ((n : Int) < 0) := by omega
  simp [jsNumToString, habs, hneg, h]
  intro hge
  exfalso
  norm_num at h
  omega

/-- Claim C5: convertInt trims its input, parses it with the native
fixed-width parser, and returns the fixed-width number exactly when its
printed form equals the trimmed input, otherwise an arbitrary-precision
integer from the literal digits.  First conjunct: EVERY canonical digit
string of a value below 2 to the 53rd (so in particular every 10-digit
literal, all of which are exactly representable) decodes to the
fixed-width number.  Remaining conjuncts: the 16-digit literal
9007199254740992 is exactly representable and still decodes fixed-width
(the rule is round-trip equality, not digit count), its successor
9007199254740993, one unit beyond exact representability, decodes to the
arbitrary-precision type, and a whitespace-padded literal is trimmed
first.  Confirmed, reading the claim's 10-digit literal as a literal
matched by the ten-or-more-digit token, since every literal of exactly ten
digits is exactly representable. -/
theorem claim_C5_convertInt (n : Nat) (hn : n < 2 ^ 53) :
    convertInt (natDigits n) = .ok (.vNum (.int (n : Int))) ∧
    convertInt (("9007199254740992").toList) =
      .ok (.vNum (.int 9007199254740992)) ∧
    convertInt (("9007199254740993").toList) = .ok (.vBigInt 9007199254740993) ∧
    convertInt ((" 9007199254740993 ").toList) = .ok (.vBigInt 9007199254740993) := by
  refine ⟨?_, by rfl, by rfl, by rfl⟩
  have htrim := jsTrim_all_digits (natDigits n) (natDigits_all_digit n)
  have hpi := jsParseInt_natDigits n (le_of_lt hn)
  have hts := jsNumToString_small n hn
  unfold convertInt
  dsimp only
  rw [htrim, hpi, hts]
  simp

/-- Witness for claim C5: the ten-digit literal 1234567890. -/
theorem claim_C5_witness :
    convertInt (natDigits 1234567890) = .ok (.vNum (.int (1234567890 : Int))) :=
  (claim_C5_convertInt 1234567890 (by norm_num)).1

end SaferParserModel
